import Mathlib

/-!
# Live recognition sampling loop and match-decision policy

A shallow embedding of the `LiveRecognition` component of the
face-sense-ai-query repository (the richer, face-api.js backed variant):
the per-tick match loop of `performRecognition`, its transient-failure
guards and try/catch, the `getKnownFaceDescriptors` snapshot, and the
start/stop interval effect, together with theorems about the published
detection list.

JavaScript numbers are modelled as rationals (ℚ); the external
`faceapi.euclideanDistance` library call is modelled as an abstract
distance function parameter `dist`, whose nonnegativity (a property of
Euclidean distance, guaranteed by the external library) appears as an
explicit hypothesis where a theorem needs it.
-/

namespace FaceSense

/-- Bounding box of a detected face (`detection.detection.box`). -/
structure Box where
  x : ℚ
  y : ℚ
  width : ℚ
  height : ℚ
  deriving Repr, DecidableEq

/-- One detected face from the external detection call: a descriptor
(`Float32Array`, modelled as a list of rationals) and a bounding box. -/
structure Detection where
  descriptor : List ℚ
  box : Box
  deriving Repr, DecidableEq

/-- A known identity: the `{ name, descriptor }` pairs produced by
`getKnownFaceDescriptors`. -/
structure KnownFace where
  name : String
  descriptor : List ℚ
  deriving Repr, DecidableEq

/-- An entry of the published detection list (the `Recognition` interface). -/
structure Recognition where
  name : String
  confidence : ℚ
  x : ℚ
  y : ℚ
  width : ℚ
  height : ℚ
  deriving Repr, DecidableEq

/-- The acceptance threshold `0.6` of the match loop. -/
def threshold : ℚ := 3 / 5

/-- The mutable `bestMatch` record of the match loop. -/
structure BestMatch where
  name : String
  confidence : ℚ
  deriving Repr, DecidableEq

/-- Initial accumulator `{ name: 'Unknown', confidence: 0 }` of the loop. -/
def initialBestMatch : BestMatch :=
  { name := "Unknown", confidence := 0 }

/-- Binary `Math.max` on numbers. -/
def mathMax (a b : ℚ) : ℚ :=
  if a ≤ b then b else a

/-- Confidence of a detected descriptor against one known face:
`Math.max(0, 1 - distance)` where `distance` is the external library's
Euclidean distance between the two descriptors. -/
def confOf (dist : List ℚ → List ℚ → ℚ) (d : List ℚ) (kf : KnownFace) : ℚ :=
  mathMax 0 (1 - dist d kf.descriptor)

/-- One iteration of the inner `for (const knownFace of knownFaces)` loop:
`if (confidence > 0.6 && confidence > bestMatch.confidence) bestMatch = ...`. -/
def matchStep (dist : List ℚ → List ℚ → ℚ) (d : List ℚ)
    (bm : BestMatch) (kf : KnownFace) : BestMatch :=
  if threshold < confOf dist d kf ∧ bm.confidence < confOf dist d kf then
    { name := kf.name, confidence := confOf dist d kf }
  else bm

/-- The full inner loop over `knownFaces` for one detected descriptor. -/
def bestMatchFor (dist : List ℚ → List ℚ → ℚ) (knownFaces : List KnownFace)
    (d : List ℚ) : BestMatch :=
  knownFaces.foldl (matchStep dist d) initialBestMatch

/-- The body of the outer `for (const detection of detections)` loop:
push a `Recognition` exactly when `bestMatch.confidence > 0`. -/
def recognitionOf (dist : List ℚ → List ℚ → ℚ) (knownFaces : List KnownFace)
    (det : Detection) : Option Recognition :=
  let bm := bestMatchFor dist knownFaces det.descriptor
  if 0 < bm.confidence then
    some { name := bm.name, confidence := bm.confidence,
           x := det.box.x, y := det.box.y,
           width := det.box.width, height := det.box.height }
  else none

/-- The `newRecognitions` list built by one successful tick. -/
def recognitionsFor (dist : List ℚ → List ℚ → ℚ) (knownFaces : List KnownFace)
    (detections : List Detection) : List Recognition :=
  detections.filterMap (recognitionOf dist knownFaces)

/-- The component state touched by one tick: `isRecognizing`,
`recognitions`, `modelsLoaded` and the `registeredFaces` query data
(`none` while the query has not resolved). Rows are modelled with their
descriptor already decoded from the stored string. -/
structure ComponentState where
  isRecognizing : Bool
  recognitions : List Recognition
  modelsLoaded : Bool
  registeredFaces : Option (List KnownFace)
  deriving Repr, DecidableEq

/-- Snapshot decoding `getKnownFaceDescriptors`: the empty list when
`registeredFaces` has not loaded, otherwise the rows as
`{ name, descriptor }` pairs. -/
def getKnownFaceDescriptors (registeredFaces : Option (List KnownFace)) :
    List KnownFace :=
  match registeredFaces with
  | none => []
  | some faces => faces

/-- The per-tick inputs from the environment: whether
`webcamRef.current?.video` is present, and the outcome of the awaited
external `detectAllFaces` call (`Except.error` models a throw). -/
structure TickInput where
  videoPresent : Bool
  detectResult : Except Unit (List Detection)

/-- The early-return guards of `performRecognition` (checked before the
await): video present, models loaded, query data present, and a nonempty
known-face snapshot. -/
def tickGuardsPass (s : ComponentState) (videoPresent : Bool) : Bool :=
  videoPresent && s.modelsLoaded && !s.registeredFaces.isNone &&
    !(getKnownFaceDescriptors s.registeredFaces).isEmpty

/-- What happens after the awaited detection call returns: on a throw the
catch block only logs (state untouched); on success
`setRecognitions(newRecognitions)` replaces the published list. The
`knownFaces` snapshot was captured before the await. -/
def applyDetect (dist : List ℚ → List ℚ → ℚ) (knownFaces : List KnownFace)
    (result : Except Unit (List Detection)) (s : ComponentState) :
    ComponentState :=
  match result with
  | .error _ => s
  | .ok detections =>
    { s with recognitions := recognitionsFor dist knownFaces detections }

/-- One whole synchronous tick of `performRecognition`: guards, then the
detection call, then the match loop and publish. -/
def performRecognition (dist : List ℚ → List ℚ → ℚ) (s : ComponentState)
    (input : TickInput) : ComponentState :=
  if tickGuardsPass s input.videoPresent then
    applyDetect dist (getKnownFaceDescriptors s.registeredFaces)
      input.detectResult s
  else s

/-! ## The interval effect and the event-level controller model

The `useEffect` with dependencies `[isRecognizing, modelsLoaded,
performRecognition]` re-runs whenever a dependency changes: React first
runs the previous effect instance's cleanup (`clearInterval`), then the
new body, which either schedules one interval timer (when recognizing
with models loaded) or publishes the empty list. A tick started by the
timer checks its guards and captures the known-face snapshot before the
await; the detection result is applied when the awaited call resolves,
with no re-check of `isRecognizing`. -/

/-- Whole-page state: the component state, the number of live interval
timers, whether the current effect instance scheduled one (so its cleanup
will clear it), and the known-face snapshots captured by ticks whose
awaited detection call has not resolved yet (oldest first). -/
structure SysState where
  comp : ComponentState
  timers : Nat
  effectTimer : Bool
  inFlight : List (List KnownFace)
  deriving Repr, DecidableEq

/-- Cleanup of the previous effect instance: `clearInterval` removes its
timer, if it had scheduled one. -/
def clearPrevTimer (s : SysState) : Nat :=
  s.timers - (if s.effectTimer then 1 else 0)

/-- One re-run of the interval effect: cleanup, then either schedule one
new interval (`isRecognizing && modelsLoaded`) or `setRecognitions([])`. -/
def runEffect (s : SysState) : SysState :=
  if s.comp.isRecognizing && s.comp.modelsLoaded then
    { s with timers := clearPrevTimer s + 1, effectTimer := true }
  else
    { s with timers := clearPrevTimer s, effectTimer := false,
             comp := { s.comp with recognitions := [] } }

/-- The events driving the controller: the start/stop button (disabled
until models load; setting the flag to its current value re-renders
nothing, so the effect does not re-run), the models finishing loading,
the registered-faces query resolving (a new `performRecognition` identity,
so the effect re-runs), an interval firing, and the oldest in-flight
awaited detection call resolving. -/
inductive Event where
  | start
  | stop
  | modelsReady
  | facesLoaded (faces : List KnownFace)
  | tickFire (videoPresent : Bool)
  | tickResolve (result : Except Unit (List Detection))

/-- The transition function of the controller model. -/
def step (dist : List ℚ → List ℚ → ℚ) (s : SysState) : Event → SysState
  | .start =>
    if !s.comp.modelsLoaded then s
    else if s.comp.isRecognizing then s
    else runEffect { s with comp := { s.comp with isRecognizing := true } }
  | .stop =>
    if !s.comp.modelsLoaded then s
    else if !s.comp.isRecognizing then s
    else runEffect { s with comp := { s.comp with isRecognizing := false } }
  | .modelsReady =>
    if s.comp.modelsLoaded then s
    else runEffect { s with comp := { s.comp with modelsLoaded := true } }
  | .facesLoaded faces =>
    runEffect { s with comp := { s.comp with registeredFaces := some faces } }
  | .tickFire videoPresent =>
    if s.timers = 0 then s
    else if tickGuardsPass s.comp videoPresent then
      { s with inFlight :=
          s.inFlight ++ [getKnownFaceDescriptors s.comp.registeredFaces] }
    else s
  | .tickResolve result =>
    match s.inFlight with
    | [] => s
    | kf :: rest =>
      { s with comp := applyDetect dist kf result s.comp, inFlight := rest }

/-- The mounted page before models load or the query resolves. -/
def initState : SysState :=
  { comp := { isRecognizing := false, recognitions := [],
              modelsLoaded := false, registeredFaces := none },
    timers := 0, effectTimer := false, inFlight := [] }

/-- States the controller can reach from the freshly mounted page. -/
inductive Reachable (dist : List ℚ → List ℚ → ℚ) : SysState → Prop where
  | init : Reachable dist initState
  | next {s : SysState} (e : Event) :
      Reachable dist s → Reachable dist (step dist s e)

/-- The timer bookkeeping invariant: all live timers belong to the current
effect instance, the instance holds a timer exactly when recognizing with
models loaded, and recognizing implies models loaded (the button is
disabled before that). -/
def TimerInv (s : SysState) : Prop :=
  s.timers = (if s.effectTimer then 1 else 0) ∧
  s.effectTimer = (s.comp.isRecognizing && s.comp.modelsLoaded) ∧
  (s.comp.isRecognizing = true → s.comp.modelsLoaded = true)

/-! ## Concrete inputs for witnesses and counterexamples -/

/-- A concrete distance function for witnesses: everything at distance 0
(confidence 1). -/
def dist0 : List ℚ → List ℚ → ℚ := fun _ _ => 0

/-- A concrete distance function for witnesses: everything at distance 1
(confidence 0). -/
def dist1 : List ℚ → List ℚ → ℚ := fun _ _ => 1

/-- A concrete distance function for witnesses: the distance to a known
descriptor is that descriptor's head entry. -/
def distHead : List ℚ → List ℚ → ℚ := fun _ e => e.headD 0

/-- A concrete detection for witnesses. -/
def det0 : Detection :=
  { descriptor := [], box := { x := 0, y := 0, width := 1, height := 1 } }

/-- A concrete published entry for counterexamples. -/
def rec0 : Recognition :=
  { name := "A", confidence := 1, x := 0, y := 0, width := 1, height := 1 }

/-- A concrete component state mid-session: models loaded, one registered
face, a nonempty previously published list. -/
def s0 : ComponentState :=
  { isRecognizing := true, recognitions := [rec0], modelsLoaded := true,
    registeredFaces := some [⟨"A", []⟩] }

/-- A concrete known-face snapshot for the stop-race trace. -/
def aliceFaces : List KnownFace := [⟨"Alice", [0]⟩]

/-- The published entry the stop-race trace ends up with. -/
def recAlice : Recognition :=
  { name := "Alice", confidence := 1, x := 0, y := 0, width := 1, height := 1 }

/-- Trace: models finish loading. -/
def traceS1 : SysState := step dist0 initState Event.modelsReady

/-- Trace: the registered-faces query resolves. -/
def traceS2 : SysState := step dist0 traceS1 (Event.facesLoaded aliceFaces)

/-- Trace: the user presses Start. -/
def traceS3 : SysState := step dist0 traceS2 Event.start

/-- Trace: the interval fires with a video frame; the tick passes its
guards, captures the snapshot, and awaits the detection call. -/
def traceS4 : SysState := step dist0 traceS3 (Event.tickFire true)

/-- Trace: the user presses Stop while the tick is still in flight. -/
def traceS5 : SysState := step dist0 traceS4 Event.stop

/-- Trace: the in-flight detection call resolves with one face. -/
def traceS6 : SysState :=
  step dist0 traceS5 (Event.tickResolve (Except.ok [det0]))

/-! ## Arithmetic facts about the confidence formula -/

theorem threshold_pos : (0 : ℚ) < threshold := by
  norm_num [threshold]

theorem mathMax_eq_max (a b : ℚ) : mathMax a b = max a b := by
  rw [mathMax]
  rcases le_or_lt a b with h | h
  · rw [if_pos h, max_eq_right h]
  · rw [if_neg (not_le.mpr h), max_eq_left (le_of_lt h)]

theorem confOf_nonneg (dist : List ℚ → List ℚ → ℚ) (d : List ℚ)
    (kf : KnownFace) : 0 ≤ confOf dist d kf := by
  rw [confOf, mathMax]
  split
  · next h => exact h
  · exact le_refl 0

theorem confOf_le_one (dist : List ℚ → List ℚ → ℚ) (d : List ℚ)
    (kf : KnownFace) (hd : 0 ≤ dist d kf.descriptor) :
    confOf dist d kf ≤ 1 := by
  rw [confOf, mathMax]
  split
  · linarith
  · norm_num

theorem confOf_pos_eq (dist : List ℚ → List ℚ → ℚ) (d : List ℚ)
    (kf : KnownFace) (h : 0 < confOf dist d kf) :
    confOf dist d kf = 1 - dist d kf.descriptor := by
  rw [confOf, mathMax] at h ⊢
  split at h
  · next hc => rw [if_pos hc]
  · exact absurd h (lt_irrefl 0)

theorem confOf_lt_of_dist_lt (dist : List ℚ → List ℚ → ℚ) (d : List ℚ)
    (kf1 kf2 : KnownFace)
    (hdist : dist d kf1.descriptor < dist d kf2.descriptor)
    (hpos : 0 < confOf dist d kf1) :
    confOf dist d kf2 < confOf dist d kf1 := by
  have h1 := confOf_pos_eq dist d kf1 hpos
  rw [h1] at hpos
  rw [h1, confOf, mathMax]
  split
  · linarith
  · exact hpos

/-! ## Characterization of the inner match loop -/

theorem foldl_matchStep_fixed (dist : List ℚ → List ℚ → ℚ) (d : List ℚ)
    (l : List KnownFace) (acc : BestMatch)
    (h : ∀ kf ∈ l, confOf dist d kf ≤ acc.confidence) :
    l.foldl (matchStep dist d) acc = acc := by
  induction l with
  | nil => rfl
  | cons x l ih =>
    have hx : matchStep dist d acc x = acc := by
      rw [matchStep, if_neg]
      rintro ⟨-, hlt⟩
      exact absurd hlt (not_lt.mpr (h x (List.mem_cons_self x l)))
    rw [List.foldl_cons, hx]
    exact ih fun kf hkf => h kf (List.mem_cons_of_mem x hkf)

theorem confidence_le_foldl_matchStep (dist : List ℚ → List ℚ → ℚ)
    (d : List ℚ) (l : List KnownFace) (acc : BestMatch) :
    acc.confidence ≤ (l.foldl (matchStep dist d) acc).confidence := by
  induction l generalizing acc with
  | nil => exact le_refl _
  | cons x l ih =>
    rw [List.foldl_cons]
    refine le_trans ?_ (ih (matchStep dist d acc x))
    rw [matchStep]
    split
    · next hcond => exact le_of_lt hcond.2
    · exact le_refl _

theorem foldl_matchStep_origin (dist : List ℚ → List ℚ → ℚ) (d : List ℚ)
    (l : List KnownFace) (acc : BestMatch) :
    l.foldl (matchStep dist d) acc = acc ∨
      ∃ kf ∈ l, l.foldl (matchStep dist d) acc =
          { name := kf.name, confidence := confOf dist d kf } ∧
        threshold < confOf dist d kf := by
  induction l generalizing acc with
  | nil => exact Or.inl rfl
  | cons x l ih =>
    rw [List.foldl_cons]
    rcases ih (matchStep dist d acc x) with h | ⟨kf, hkf, heq, hth⟩
    · rw [h, matchStep]
      split
      · next hcond =>
        exact Or.inr ⟨x, List.mem_cons_self x l, rfl, hcond.1⟩
      · exact Or.inl rfl
    · exact Or.inr ⟨kf, List.mem_cons_of_mem x hkf, heq, hth⟩

theorem foldl_matchStep_dominates (dist : List ℚ → List ℚ → ℚ) (d : List ℚ)
    (l : List KnownFace) (acc : BestMatch) :
    ∀ kf ∈ l, threshold < confOf dist d kf →
      confOf dist d kf ≤ (l.foldl (matchStep dist d) acc).confidence := by
  induction l generalizing acc with
  | nil => intro kf hkf; exact absurd hkf (List.not_mem_nil kf)
  | cons x l ih =>
    intro kf hkf hth
    rw [List.foldl_cons]
    rcases List.mem_cons.mp hkf with rfl | hmem
    · refine le_trans ?_ (confidence_le_foldl_matchStep dist d l _)
      rw [matchStep]
      split
      · exact le_refl _
      · next hcond =>
        rcases not_and_or.mp hcond with h | h
        · exact absurd hth h
        · exact not_lt.mp h
    · exact ih (matchStep dist d acc x) kf hmem hth

theorem foldl_matchStep_lt (dist : List ℚ → List ℚ → ℚ) (d : List ℚ)
    (l : List KnownFace) (acc : BestMatch) (c : ℚ)
    (hacc : acc.confidence < c) (h : ∀ kf ∈ l, confOf dist d kf < c) :
    (l.foldl (matchStep dist d) acc).confidence < c := by
  induction l generalizing acc with
  | nil => exact hacc
  | cons x l ih =>
    rw [List.foldl_cons]
    refine ih (matchStep dist d acc x) ?_
      (fun kf hkf => h kf (List.mem_cons_of_mem x hkf))
    rw [matchStep]
    split
    · exact h x (List.mem_cons_self x l)
    · exact hacc

theorem bestMatchFor_origin (dist : List ℚ → List ℚ → ℚ)
    (kfs : List KnownFace) (d : List ℚ) :
    bestMatchFor dist kfs d = initialBestMatch ∨
      ∃ kf ∈ kfs, bestMatchFor dist kfs d =
          { name := kf.name, confidence := confOf dist d kf } ∧
        threshold < confOf dist d kf :=
  foldl_matchStep_origin dist d kfs initialBestMatch

theorem bestMatchFor_dominates (dist : List ℚ → List ℚ → ℚ)
    (kfs : List KnownFace) (d : List ℚ) :
    ∀ kf ∈ kfs, threshold < confOf dist d kf →
      confOf dist d kf ≤ (bestMatchFor dist kfs d).confidence :=
  foldl_matchStep_dominates dist d kfs initialBestMatch

theorem recognitions_above_threshold (dist : List ℚ → List ℚ → ℚ)
    (kfs : List KnownFace) (dets : List Detection) :
    ∀ r ∈ recognitionsFor dist kfs dets, threshold < r.confidence := by
  intro r hr
  rw [recognitionsFor, List.mem_filterMap] at hr
  obtain ⟨det, hdet, hsome⟩ := hr
  simp only [recognitionOf] at hsome
  split at hsome
  · next hpos =>
    obtain rfl := Option.some.inj hsome
    show threshold < (bestMatchFor dist kfs det.descriptor).confidence
    rcases bestMatchFor_origin dist kfs det.descriptor with h0 | ⟨kf, hkf, heq, hth⟩
    · rw [h0] at hpos
      exact absurd hpos (by norm_num [initialBestMatch])
    · have hc : (bestMatchFor dist kfs det.descriptor).confidence =
          confOf dist det.descriptor kf := by rw [heq]
      rw [hc]
      exact hth
  · cases hsome

/-! ## Claims about the match-decision policy -/

/-- C1: every emitted match names a known identity whose confidence is
strictly above the 0.6 threshold and at least as high as every other
known identity's confidence against that face; in particular, for two
identities with distance(D,E1) < distance(D,E2) and confidence(D,E1)
above the threshold, the match is identity 1 in either snapshot iteration
order: best-confidence selection, not first-above-threshold. -/
theorem best_confidence_selection (dist : List ℚ → List ℚ → ℚ)
    (kfs : List KnownFace) (dets : List Detection) :
    (∀ r ∈ recognitionsFor dist kfs dets,
      ∃ det ∈ dets, ∃ kf ∈ kfs,
        r.name = kf.name ∧ r.confidence = confOf dist det.descriptor kf ∧
        threshold < r.confidence ∧
        ∀ kf2 ∈ kfs, confOf dist det.descriptor kf2 ≤ r.confidence) ∧
    (∀ (n1 n2 : String) (e1 e2 dd : List ℚ),
      dist dd e1 < dist dd e2 → threshold < confOf dist dd ⟨n1, e1⟩ →
      (bestMatchFor dist [⟨n1, e1⟩, ⟨n2, e2⟩] dd).name = n1 ∧
      (bestMatchFor dist [⟨n2, e2⟩, ⟨n1, e1⟩] dd).name = n1) := by
  constructor
  · intro r hr
    rw [recognitionsFor, List.mem_filterMap] at hr
    obtain ⟨det, hdet, hsome⟩ := hr
    simp only [recognitionOf] at hsome
    split at hsome
    · next hpos =>
      obtain rfl := Option.some.inj hsome
      rcases bestMatchFor_origin dist kfs det.descriptor with h0 | ⟨kf, hkf, heq, hth⟩
      · rw [h0] at hpos
        exact absurd hpos (by norm_num [initialBestMatch])
      · have hconf : (bestMatchFor dist kfs det.descriptor).confidence =
            confOf dist det.descriptor kf := by rw [heq]
        refine ⟨det, hdet, kf, hkf, ?_, ?_, ?_, ?_⟩
        · show (bestMatchFor dist kfs det.descriptor).name = kf.name
          rw [heq]
        · exact hconf
        · show threshold < (bestMatchFor dist kfs det.descriptor).confidence
          rw [hconf]; exact hth
        · intro kf2 hkf2
          show confOf dist det.descriptor kf2 ≤
            (bestMatchFor dist kfs det.descriptor).confidence
          by_cases h2 : threshold < confOf dist det.descriptor kf2
          · exact bestMatchFor_dominates dist kfs det.descriptor kf2 hkf2 h2
          · rw [hconf]
            exact le_trans (not_lt.mp h2) (le_of_lt hth)
    · cases hsome
  · intro n1 n2 e1 e2 dd h12 hth1
    have hc1pos : 0 < confOf dist dd ⟨n1, e1⟩ := lt_trans threshold_pos hth1
    have hlt : confOf dist dd ⟨n2, e2⟩ < confOf dist dd ⟨n1, e1⟩ :=
      confOf_lt_of_dist_lt dist dd ⟨n1, e1⟩ ⟨n2, e2⟩ h12 hc1pos
    constructor
    · show (matchStep dist dd
        (matchStep dist dd initialBestMatch ⟨n1, e1⟩) ⟨n2, e2⟩).name = n1
      have h1 : matchStep dist dd initialBestMatch ⟨n1, e1⟩ =
          { name := n1, confidence := confOf dist dd ⟨n1, e1⟩ } := by
        simp only [matchStep]
        rw [if_pos ⟨hth1, hc1pos⟩]
      rw [h1]
      have h2 : matchStep dist dd
          { name := n1, confidence := confOf dist dd ⟨n1, e1⟩ } ⟨n2, e2⟩ =
          { name := n1, confidence := confOf dist dd ⟨n1, e1⟩ } := by
        simp only [matchStep]
        rw [if_neg]
        rintro ⟨-, hup⟩
        exact absurd hup (not_lt.mpr (le_of_lt hlt))
      rw [h2]
    · show (matchStep dist dd
        (matchStep dist dd initialBestMatch ⟨n2, e2⟩) ⟨n1, e1⟩).name = n1
      have hinner : (matchStep dist dd initialBestMatch ⟨n2, e2⟩).confidence <
          confOf dist dd ⟨n1, e1⟩ := by
        simp only [matchStep]
        split
        · exact hlt
        · exact hc1pos
      have hstep : matchStep dist dd
          (matchStep dist dd initialBestMatch ⟨n2, e2⟩) ⟨n1, e1⟩ =
          { name := n1, confidence := confOf dist dd ⟨n1, e1⟩ } := by
        simp only [matchStep]
        rw [if_pos ⟨hth1, hinner⟩]
      rw [hstep]

/-- Witness for C1 at a concrete two-identity snapshot, in both orders. -/
theorem best_confidence_selection_witness :
    (bestMatchFor distHead [⟨"A", [0]⟩, ⟨"B", [1]⟩] []).name = "A" ∧
    (bestMatchFor distHead [⟨"B", [1]⟩, ⟨"A", [0]⟩] []).name = "A" :=
  (best_confidence_selection distHead [] []).2 "A" "B" [0] [1] []
    (by norm_num [distHead])
    (by norm_num [confOf, mathMax, distHead, threshold])

/-- C2: a detected face whose best confidence against every known identity
is at most 0.6 yields no match and is excluded from the published list
entirely; it is not emitted labeled Unknown. -/
theorem subthreshold_face_excluded (dist : List ℚ → List ℚ → ℚ)
    (kfs : List KnownFace) (det : Detection)
    (h : ∀ kf ∈ kfs, confOf dist det.descriptor kf ≤ threshold) :
    recognitionOf dist kfs det = none ∧
    ∀ dets : List Detection,
      recognitionsFor dist kfs (det :: dets) = recognitionsFor dist kfs dets := by
  have hbm : bestMatchFor dist kfs det.descriptor = initialBestMatch := by
    rcases bestMatchFor_origin dist kfs det.descriptor with h0 | ⟨kf, hkf, -, hth⟩
    · exact h0
    · exact absurd hth (not_lt.mpr (h kf hkf))
  have hnone : recognitionOf dist kfs det = none := by
    simp only [recognitionOf, hbm]
    rw [if_neg]
    norm_num [initialBestMatch]
  refine ⟨hnone, fun dets => ?_⟩
  simp [recognitionsFor, List.filterMap_cons, hnone]

/-- Witness for C2: one known identity at distance 1 (confidence 0). -/
theorem subthreshold_face_excluded_witness :
    recognitionOf dist1 [⟨"A", []⟩] det0 = none :=
  (subthreshold_face_excluded dist1 [⟨"A", []⟩] det0 (by
    intro kf hkf
    rw [List.mem_singleton] at hkf
    subst hkf
    norm_num [confOf, mathMax, dist1, det0, threshold])).1

/-- C9: when several known identities reach the (above-threshold) best
confidence, the first-encountered one in snapshot iteration order wins:
with every identity before it scoring strictly lower and every identity
after it at most as high, the loop returns exactly that identity and its
score, deterministically. -/
theorem tie_break_first_wins (dist : List ℚ → List ℚ → ℚ) (d : List ℚ)
    (pre post : List KnownFace) (kf : KnownFace)
    (hth : threshold < confOf dist d kf)
    (hpre : ∀ x ∈ pre, confOf dist d x < confOf dist d kf)
    (hpost : ∀ x ∈ post, confOf dist d x ≤ confOf dist d kf) :
    bestMatchFor dist (pre ++ kf :: post) d =
      { name := kf.name, confidence := confOf dist d kf } := by
  rw [bestMatchFor, List.foldl_append, List.foldl_cons]
  have hpre2 : (pre.foldl (matchStep dist d) initialBestMatch).confidence <
      confOf dist d kf :=
    foldl_matchStep_lt dist d pre initialBestMatch _
      (lt_trans threshold_pos hth) hpre
  have hstep : matchStep dist d
      (pre.foldl (matchStep dist d) initialBestMatch) kf =
      { name := kf.name, confidence := confOf dist d kf } := by
    simp only [matchStep]
    rw [if_pos ⟨hth, hpre2⟩]
  rw [hstep]
  exact foldl_matchStep_fixed dist d post _ fun x hx => hpost x hx

/-- Witness for C9 at a concrete exact tie between two identities. -/
theorem tie_break_first_wins_witness :
    bestMatchFor dist0 ([] ++ ⟨"A", []⟩ :: [⟨"B", []⟩]) [] =
      { name := "A", confidence := confOf dist0 [] ⟨"A", []⟩ } :=
  tie_break_first_wins dist0 [] [] [⟨"B", []⟩] ⟨"A", []⟩
    (by norm_num [confOf, mathMax, dist0, threshold])
    (fun x hx => absurd hx (List.not_mem_nil x))
    (by
      intro x hx
      rw [List.mem_singleton] at hx
      subst hx
      exact le_refl _)

/-! ## Claims about one tick of the loop -/

/-- C3 counterexample: with a nonempty previously published list, a tick
whose external detection call throws leaves the published list equal to
the previous (nonempty) list, not the empty list the claim demands. -/
theorem tick_error_empty_list_counterexample :
    (performRecognition dist0 s0
        { videoPresent := true, detectResult := Except.error () }).recognitions
      = [rec0] ∧ [rec0] ≠ ([] : List Recognition) := by
  constructor
  · rfl
  · simp

/-- C3 amended: if the external detection call throws during a tick, the
failure is caught within that tick (the tick is a total no-op, so the
loop does not terminate), and the published detection list is left
unchanged: the previous list is retained, not replaced by the empty
list. -/
theorem tick_error_caught_retains_list (dist : List ℚ → List ℚ → ℚ)
    (s : ComponentState) (vp : Bool) (e : Unit) :
    performRecognition dist s
      { videoPresent := vp, detectResult := Except.error e } = s := by
  rw [performRecognition]
  split
  · rfl
  · rfl

/-- C5: the state after a tick is either exactly the previous state (on
any transient failure) or the previous state with the published list
replaced wholesale by a list built from this tick's detections (on
success); a partial merge of old and new entries is never published. -/
theorem tick_publishes_atomically (dist : List ℚ → List ℚ → ℚ)
    (s : ComponentState) (input : TickInput) :
    performRecognition dist s input = s ∨
      ∃ dets : List Detection, input.detectResult = Except.ok dets ∧
        performRecognition dist s input =
          { s with recognitions := recognitionsFor dist (getKnownFaceDescriptors s.registeredFaces) dets } := by
  by_cases hg : tickGuardsPass s input.videoPresent = true
  · rw [performRecognition, if_pos hg]
    cases hres : input.detectResult with
    | error e => exact Or.inl rfl
    | ok dets => exact Or.inr ⟨dets, rfl, rfl⟩
  · rw [performRecognition, if_neg hg]
    exact Or.inl rfl

/-- C6: per face and known identity, the confidence is computed as
max(0, 1 - distance) from the externally computed distance; when that
distance is nonnegative (as a Euclidean distance is), the confidence lies
in [0, 1]; and every emitted match has confidence strictly above the 0.6
threshold. -/
theorem confidence_in_unit_interval (dist : List ℚ → List ℚ → ℚ)
    (d : List ℚ) (kf : KnownFace) (kfs : List KnownFace)
    (dets : List Detection) (hd : 0 ≤ dist d kf.descriptor) :
    confOf dist d kf = max 0 (1 - dist d kf.descriptor) ∧
    0 ≤ confOf dist d kf ∧ confOf dist d kf ≤ 1 ∧
    ∀ r ∈ recognitionsFor dist kfs dets, threshold < r.confidence :=
  ⟨mathMax_eq_max 0 (1 - dist d kf.descriptor),
   confOf_nonneg dist d kf,
   confOf_le_one dist d kf hd,
   recognitions_above_threshold dist kfs dets⟩

/-- Witness for C6 at a concrete nonnegative distance. -/
theorem confidence_in_unit_interval_witness :
    confOf dist1 [] ⟨"A", []⟩ = max 0 (1 - dist1 [] ([] : List ℚ)) ∧
    0 ≤ confOf dist1 [] ⟨"A", []⟩ ∧ confOf dist1 [] ⟨"A", []⟩ ≤ 1 ∧
    ∀ r ∈ recognitionsFor dist1 [] [], threshold < r.confidence :=
  confidence_in_unit_interval dist1 [] ⟨"A", []⟩ [] [] (by norm_num [dist1])

/-- C7: a tick invoked with no current video frame, with the models not
yet loaded, with the registered-faces query unresolved, or with an empty
known-identity snapshot is a total no-op: the whole component state (in
particular the published detection list) is unchanged, and, the tick
being a total function, nothing is raised and the loop cannot crash. -/
theorem tick_transient_states_silent (dist : List ℚ → List ℚ → ℚ)
    (s : ComponentState) (input : TickInput)
    (h : input.videoPresent = false ∨ s.modelsLoaded = false ∨
      s.registeredFaces = none ∨
      getKnownFaceDescriptors s.registeredFaces = []) :
    performRecognition dist s input = s := by
  have hguard : tickGuardsPass s input.videoPresent = false := by
    rw [tickGuardsPass]
    rcases h with h | h | h | h
    · rw [h]; simp
    · rw [h]; simp
    · rw [h]; simp
    · rw [h]; simp
  rw [performRecognition, if_neg (by simp [hguard])]

/-- Witness for C7: an unresolved registered-faces query (hence an empty
known snapshot) leaves the state untouched. -/
theorem tick_transient_states_silent_witness :
    performRecognition dist0
        { isRecognizing := true, recognitions := [rec0],
          modelsLoaded := true, registeredFaces := none }
        { videoPresent := true, detectResult := Except.ok [] } =
      { isRecognizing := true, recognitions := [rec0],
        modelsLoaded := true, registeredFaces := none } :=
  tick_transient_states_silent dist0 _ _ (Or.inr (Or.inr (Or.inl rfl)))

/-! ## The timer bookkeeping invariant -/

theorem timerInv_init : TimerInv initState :=
  ⟨rfl, rfl, fun h => nomatch h⟩

theorem runEffect_timerInv (s : SysState)
    (htimer : s.timers = if s.effectTimer then 1 else 0)
    (hrm : s.comp.isRecognizing = true → s.comp.modelsLoaded = true) :
    TimerInv (runEffect s) := by
  have ht : clearPrevTimer s = 0 := by
    rw [clearPrevTimer, htimer]
    cases s.effectTimer <;> rfl
  rw [runEffect]
  cases hb : (s.comp.isRecognizing && s.comp.modelsLoaded) with
  | true =>
    rw [if_pos rfl]
    exact ⟨by simp [ht], hb.symm, hrm⟩
  | false =>
    rw [if_neg (by simp)]
    exact ⟨by simp [ht], hb.symm, hrm⟩

theorem reachable_timerInv (dist : List ℚ → List ℚ → ℚ) (s : SysState)
    (h : Reachable dist s) : TimerInv s := by
  induction h with
  | init => exact timerInv_init
  | @next s e hs ih =>
    obtain ⟨iht, ihe, ihr⟩ := ih
    cases e with
    | start =>
      simp only [step]
      by_cases h1 : (!s.comp.modelsLoaded) = true
      · rw [if_pos h1]; exact ⟨iht, ihe, ihr⟩
      · rw [if_neg h1]
        by_cases h2 : s.comp.isRecognizing = true
        · rw [if_pos h2]; exact ⟨iht, ihe, ihr⟩
        · rw [if_neg h2]
          refine runEffect_timerInv _ iht fun _ => ?_
          cases hml2 : s.comp.modelsLoaded
          · exact absurd (by rw [hml2]; rfl) h1
          · rfl
    | stop =>
      simp only [step]
      by_cases h1 : (!s.comp.modelsLoaded) = true
      · rw [if_pos h1]; exact ⟨iht, ihe, ihr⟩
      · rw [if_neg h1]
        by_cases h2 : (!s.comp.isRecognizing) = true
        · rw [if_pos h2]; exact ⟨iht, ihe, ihr⟩
        · rw [if_neg h2]
          exact runEffect_timerInv _ iht fun hh => nomatch hh
    | modelsReady =>
      simp only [step]
      by_cases h1 : s.comp.modelsLoaded = true
      · rw [if_pos h1]; exact ⟨iht, ihe, ihr⟩
      · rw [if_neg h1]
        exact runEffect_timerInv _ iht fun _ => rfl
    | facesLoaded faces =>
      simp only [step]
      exact runEffect_timerInv _ iht ihr
    | tickFire vp =>
      simp only [step]
      by_cases h1 : s.timers = 0
      · rw [if_pos h1]; exact ⟨iht, ihe, ihr⟩
      · rw [if_neg h1]
        by_cases h2 : tickGuardsPass s.comp vp = true
        · rw [if_pos h2]; exact ⟨iht, ihe, ihr⟩
        · rw [if_neg h2]; exact ⟨iht, ihe, ihr⟩
    | tickResolve res =>
      simp only [step]
      cases hf : s.inFlight with
      | nil => exact ⟨iht, ihe, ihr⟩
      | cons kf rest =>
        cases res with
        | error e => exact ⟨iht, ihe, ihr⟩
        | ok dets => exact ⟨iht, ihe, ihr⟩

theorem step_start_noop (dist : List ℚ → List ℚ → ℚ) (s : SysState)
    (hml : s.comp.modelsLoaded = true)
    (hrec : s.comp.isRecognizing = true) : step dist s Event.start = s := by
  simp only [step]
  rw [if_neg (by simp [hml]), if_pos hrec]

theorem step_start_props (dist : List ℚ → List ℚ → ℚ) (s : SysState)
    (hml : s.comp.modelsLoaded = true) :
    (step dist s Event.start).comp.isRecognizing = true ∧
    (step dist s Event.start).comp.modelsLoaded = true := by
  simp only [step]
  rw [if_neg (by simp [hml])]
  cases hrec : s.comp.isRecognizing
  · rw [if_neg (by simp), runEffect, if_pos (by simp [hml])]
    exact ⟨rfl, hml⟩
  · rw [if_pos rfl]
    exact ⟨hrec, hml⟩

/-! ## Claims about the controller state machine -/

/-- C8: in every reachable controller state a sampling timer exists iff
the state is Sampling (recognition on), at most one timer is live at a
time, entering Idle via stop() clears the published detection list, and
pressing Start twice without an intervening stop leaves exactly one live
timer (no duplicate scheduling). -/
theorem timer_iff_sampling_invariant (dist : List ℚ → List ℚ → ℚ)
    (s : SysState) (h : Reachable dist s) :
    (0 < s.timers ↔ s.comp.isRecognizing = true) ∧
    s.timers ≤ 1 ∧
    (s.comp.isRecognizing = true →
      (step dist s Event.stop).comp.recognitions = []) ∧
    (s.comp.modelsLoaded = true →
      (step dist (step dist s Event.start) Event.start).timers = 1) := by
  obtain ⟨iht, ihe, ihr⟩ := reachable_timerInv dist s h
  have hts : s.timers = if s.comp.isRecognizing = true then 1 else 0 := by
    rw [iht, ihe]
    cases hr : s.comp.isRecognizing
    · simp
    · simp [ihr hr]
  refine ⟨?_, ?_, ?_, ?_⟩
  · rw [hts]
    cases hr : s.comp.isRecognizing <;> simp
  · rw [hts]
    cases hr : s.comp.isRecognizing <;> simp
  · intro hrec
    have hml := ihr hrec
    simp only [step]
    rw [if_neg (by simp [hml]), if_neg (by simp [hrec]), runEffect,
      if_neg (by simp)]
  · intro hml
    obtain ⟨h1rec, h1ml⟩ := step_start_props dist s hml
    obtain ⟨jt, je, jr⟩ :=
      reachable_timerInv dist _ (Reachable.next Event.start h)
    rw [step_start_noop dist _ h1ml h1rec, jt, je, h1rec, h1ml]
    simp

/-- Witness for C8 at the concrete reachable state after modelsReady,
facesLoaded and one press of Start. -/
theorem timer_iff_sampling_invariant_witness :
    (0 < traceS3.timers ↔ traceS3.comp.isRecognizing = true) ∧
    traceS3.timers ≤ 1 ∧
    (traceS3.comp.isRecognizing = true →
      (step dist0 traceS3 Event.stop).comp.recognitions = []) ∧
    (traceS3.comp.modelsLoaded = true →
      (step dist0 (step dist0 traceS3 Event.start) Event.start).timers = 1) :=
  timer_iff_sampling_invariant dist0 traceS3
    (Reachable.next Event.start
      (Reachable.next (Event.facesLoaded aliceFaces)
        (Reachable.next Event.modelsReady Reachable.init)))

theorem recognitionsFor_alice :
    recognitionsFor dist0 aliceFaces [det0] = [recAlice] := by
  have hconf : confOf dist0 det0.descriptor ⟨"Alice", [0]⟩ = 1 := by
    norm_num [confOf, mathMax, dist0]
  have hbm : bestMatchFor dist0 aliceFaces det0.descriptor =
      { name := "Alice", confidence := 1 } := by
    rw [aliceFaces, bestMatchFor, List.foldl_cons, List.foldl_nil, matchStep,
      hconf]
    rw [if_pos ⟨by norm_num [threshold], by norm_num [initialBestMatch]⟩]
  have hro : recognitionOf dist0 aliceFaces det0 = some recAlice := by
    simp only [recognitionOf, hbm]
    rw [if_pos (by norm_num)]
    rfl
  simp [recognitionsFor, List.filterMap_cons, hro]

/-- C4 counterexample: in the concrete trace modelsReady, facesLoaded,
start, tickFire, stop, tickResolve — stop() racing an in-flight tick —
the published list is empty immediately after stop(), the controller is
Idle, and yet the late tick's result is then published: the in-flight
result is not discarded, so the published list does not reflect Idle
regardless of the race. -/
theorem stop_discards_inflight_counterexample :
    traceS5.comp.recognitions = [] ∧
    traceS5.comp.isRecognizing = false ∧
    traceS6.comp.recognitions = [recAlice] ∧
    traceS6.comp.recognitions ≠ [] := by
  have h6 : traceS6.comp.recognitions = recognitionsFor dist0 aliceFaces [det0] := rfl
  refine ⟨rfl, rfl, ?_, ?_⟩
  · rw [h6, recognitionsFor_alice]
  · rw [h6, recognitionsFor_alice]
    simp

/-- C4 amended: pressing Stop while Sampling immediately publishes the
empty list; but a tick in flight at that moment is not discarded: when
its awaited detection call later resolves successfully, its result list
is published unconditionally, overwriting the empty Idle list. -/
theorem stop_clears_but_inflight_publishes (dist : List ℚ → List ℚ → ℚ)
    (s t : SysState) (hrec : s.comp.isRecognizing = true)
    (hml : s.comp.modelsLoaded = true) (kf : List KnownFace)
    (rest : List (List KnownFace)) (dets : List Detection)
    (hin : t.inFlight = kf :: rest) :
    (step dist s Event.stop).comp.recognitions = [] ∧
    (step dist t (Event.tickResolve (Except.ok dets))).comp.recognitions =
      recognitionsFor dist kf dets := by
  constructor
  · simp only [step]
    rw [if_neg (by simp [hml]), if_neg (by simp [hrec]), runEffect,
      if_neg (by simp)]
  · simp only [step]
    rw [hin]
    rfl

/-- Witness for C4 amended: the concrete trace, stopping at `traceS3` and
resolving the in-flight tick of `traceS4`. -/
theorem stop_clears_but_inflight_publishes_witness :
    (step dist0 traceS3 Event.stop).comp.recognitions = [] ∧
    (step dist0 traceS4
        (Event.tickResolve (Except.ok [det0]))).comp.recognitions =
      recognitionsFor dist0 aliceFaces [det0] :=
  stop_clears_but_inflight_publishes dist0 traceS3 traceS4 rfl rfl
    aliceFaces [] [det0] rfl

end FaceSense
